import Mathlib

/-!
Verification development for the MT910 reconciliation script
(`mt910_reconciliation_script.py`).

The matching core is the function `reconcile(mt_df, app_df)` (lines 53-103
of the source).  We embed it shallowly:

* A bank row (`TransactionRecord`) and a ledger row (`LedgerEntry`) carry
  the columns the matching loop reads.  Dates are day numbers (`Int`): the
  source subtracts two `datetime.date` values and reads `.days`, which is
  exactly the difference of day numbers.  Amounts are exact rationals
  (`Rat`), the spec's `decimal`; binary floating-point rounding of the
  Python `float` type is outside the embedding.
* The similarity matrix `sim_matrix` (source line 59) is passed to the
  embedded `reconcile` as an explicit function `sim : Nat -> Nat -> Rat`,
  exactly as the matching loop consumes it (`sim_matrix[i, j]`, line 74).
  The construction of the matrix by `TfidfVectorizer` / `cosine_similarity`
  (sklearn, external to this repository) is modelled separately below from
  the spec's description of the Similarity Scorer.
* The loop body (lines 67-96): nulls are skipped (line 71), the tolerance
  checks are `abs(amount diff) <= 0.1` and `abs(day diff) <= 1`
  (lines 76-77; the `try/except` cannot fire on well-typed rows), and the
  running best is replaced only when `score > best_score` together with
  both tolerance checks (line 81).
* Lines 98-103 write the five result columns into `mt_df` itself and
  return it; the embedded `reconcile` returns the final state of that
  frame as a list of `OutRow` (the original columns, with the narration
  column lower-cased by line 54, plus the five result columns).
-/

/-- A bank-side row as consumed by `reconcile` (parsed from an MT910
message by `parse_mt910_messages`). -/
structure TransactionRecord where
  reference : String
  account : String
  date : Option Int
  currency : Option String
  amount : Option Rat
  narration : String
  deriving DecidableEq, Repr

/-- A ledger-side row as consumed by `reconcile` (loaded by
`load_application_entries`). -/
structure LedgerEntry where
  date : Option Int
  amount : Option Rat
  narration : String
  deriving DecidableEq, Repr

/-- One row of the frame returned by `reconcile`: the bank columns
(narration lower-cased by line 54) plus the five result columns appended
at lines 98-102. -/
structure OutRow where
  record : TransactionRecord
  matched_index : Option Nat
  similarity_score : Rat
  matched_amount : Option Rat
  matched_date : Option Int
  matched_narration : Option String
  deriving DecidableEq, Repr

/-- Python's `str.lower()`: lower-case each character (character map over
the string's characters). -/
def lowerStr (s : String) : String :=
  ⟨s.data.map Char.toLower⟩

/-- Line 54: `mt_df['narration'] = mt_df['narration'].str.lower()`. -/
def lowerNarration (b : TransactionRecord) : TransactionRecord :=
  { b with narration := lowerStr b.narration }

/-- The candidate-eligibility predicate of the loop body: the null test of
line 71 together with `amount_match` (line 76) and `date_match` (line 77).
The spec names this consolidated predicate `is_eligible` (section 4.2). -/
def is_eligible (b : TransactionRecord) (l : LedgerEntry) : Bool :=
  match b.date, l.date, b.amount, l.amount with
  | some bd, some ld, some ba, some la =>
      decide (abs (ba - la) ≤ 1/10) && decide (abs (bd - ld) ≤ 1)
  | _, _, _, _ => false

/-- The inner loop of `reconcile` (lines 70-83): scan the ledger rows in
ascending index order starting at index `j`, carrying the accumulator
`(best_score, best_idx)`; a candidate replaces the running best only when
it is eligible and its score is strictly greater (line 81).  `best_idx`'s
sentinel `-1` is modelled as `none`. -/
def bestScan (simRow : Nat → Rat) (b : TransactionRecord) :
    List LedgerEntry → Nat → Rat × Option Nat → Rat × Option Nat
  | [], _, acc => acc
  | l :: rest, j, acc =>
      bestScan simRow b rest (j + 1)
        (if is_eligible b l ∧ simRow j > acc.1 then (simRow j, some j) else acc)

/-- Lines 68-83: the full inner scan for one bank row, starting from
`best_score = 0`, `best_idx = -1` (modelled `none`). -/
def bestMatch (simRow : Nat → Rat) (b : TransactionRecord)
    (ledger : List LedgerEntry) : Rat × Option Nat :=
  bestScan simRow b ledger 0 (0, none)

/-- Lines 85-96: turn the scan result for one bank row into the values
appended to the five result columns.  On a match the matched ledger row is
re-read with `app_df.loc[best_idx, ...]` (lines 88-90); unmatched rows get
`None, 0, None, None, None` (lines 92-96). -/
def mkOutRow (simRow : Nat → Rat) (app : List LedgerEntry)
    (b : TransactionRecord) : OutRow :=
  match bestMatch simRow b app with
  | (s, some j) =>
      { record := b
        matched_index := some j
        similarity_score := s
        matched_amount := (app.get? j).bind (fun e => e.amount)
        matched_date := (app.get? j).bind (fun e => e.date)
        matched_narration := (app.get? j).map (fun e => e.narration) }
  | (_, none) =>
      { record := b
        matched_index := none
        similarity_score := 0
        matched_amount := none
        matched_date := none
        matched_narration := none }

/-- The outer loop of `reconcile` (line 67): iterate the bank rows in
order, pairing row `i` with similarity row `sim i`. -/
def reconcileRows (sim : Nat → Nat → Rat) (app : List LedgerEntry) :
    Nat → List TransactionRecord → List OutRow
  | _, [] => []
  | i, b :: rest =>
      mkOutRow (sim i) app (lowerNarration b) :: reconcileRows sim app (i + 1) rest

/-- `reconcile(mt_df, app_df)` (lines 53-103), with the similarity matrix
of line 59 as an explicit argument: lower-case the bank narrations
(line 54), run the matching loop over every bank row, and return the bank
frame augmented with the five result columns (lines 98-103). -/
def reconcile (sim : Nat → Nat → Rat) (mt : List TransactionRecord)
    (app : List LedgerEntry) : List OutRow :=
  reconcileRows sim app 0 mt

/-!
The Similarity Scorer (source lines 55-59).  The source delegates to
`sklearn.TfidfVectorizer` and `sklearn.metrics.pairwise.cosine_similarity`,
which are external to this repository; the definitions below are therefore
modelled from the spec's section 4.1.  The structure that *is* in the
source is kept exactly: one vocabulary is fitted once from the
concatenation `mt narrations ++ app narrations` (line 55), both sides are
projected into that one space (lines 56-57), and the matrix is the
pairwise cosine similarity, bank rows by ledger columns (line 59).
-/

/-- Split a character stream into maximal alphanumeric runs, carrying the
current (reversed) run in `acc`. -/
def tokenizeChars : List Char → List Char → List (List Char)
  | [], acc => if acc = [] then [] else [acc.reverse]
  | c :: cs, acc =>
      if c.isAlphanum then tokenizeChars cs (c :: acc)
      else if acc = [] then tokenizeChars cs []
      else acc.reverse :: tokenizeChars cs []

/-- Modelled from the spec: the scorer's tokenizer (inside the external
`TfidfVectorizer`).  A narration is split on non-alphanumeric characters
and only tokens of at least two characters are kept (the vectorizer's
default token rule); an empty narration yields no tokens. -/
def tokens (s : String) : List String :=
  ((tokenizeChars s.data []).filter (fun cs => 2 ≤ cs.length)).map
    (fun cs => String.mk cs)

/-- Modelled from the spec: the vocabulary fitted once from a document
collection — the distinct tokens occurring across all documents. -/
def vocab (docs : List String) : List String :=
  ((docs.map tokens).flatten).dedup

/-- Number of occurrences of token `t` in a token list (term frequency). -/
def countTok (t : String) (ts : List String) : Nat :=
  (ts.filter (fun x => x = t)).length

/-- Number of documents whose token list contains `t` (document
frequency). -/
def docFreq (docs : List String) (t : String) : Nat :=
  (docs.filter (fun d => (tokens d).contains t)).length

/-- Modelled from the spec: the inverse-document-frequency weight — a
token's weight is inversely scaled by how many narrations (across both
sides) contain it.  For a vocabulary token the document frequency is at
least 1; `Rat` division by zero is 0, so the weight is non-negative
everywhere. -/
def idf (docs : List String) (t : String) : Rat :=
  1 / (docFreq docs t : Rat)

/-- Modelled from the spec: the weighted term-frequency vector of one
narration in the shared vocabulary space — term frequency scaled by
inverse document frequency, one coordinate per vocabulary token. -/
def tfidfVec (docs : List String) (d : String) : List Rat :=
  (vocab docs).map (fun t => (countTok t (tokens d) : Rat) * idf docs t)

/-- Coordinatewise dot product of two weight vectors. -/
def dotQ : List Rat → List Rat → Rat
  | [], _ => 0
  | _, [] => 0
  | a :: u, b :: v => a * b + dotQ u v

/-- Sum of squared coordinates of a weight vector. -/
def sumSq : List Rat → Rat
  | [] => 0
  | a :: u => a * a + sumSq u

/-- Modelled from the spec: cosine similarity — the normalized dot product
of two term-weight vectors.  Real division by a zero norm is 0 in Lean, so
a pair involving a zero vector gets similarity 0, exactly the spec's
convention (never an error). -/
noncomputable def cosineSim (u v : List Rat) : ℝ :=
  ((dotQ u v : Rat) : ℝ) / (Real.sqrt ((sumSq u : Rat) : ℝ) * Real.sqrt ((sumSq v : Rat) : ℝ))

/-- Lines 55-59: the dense similarity matrix, one row per bank narration
and one column per ledger narration, every narration projected with the
single vocabulary fitted from the concatenation of both sides. -/
noncomputable def simMatrix (bankN ledgerN : List String) : List (List ℝ) :=
  bankN.map (fun bn =>
    ledgerN.map (fun ln =>
      cosineSim (tfidfVec (bankN ++ ledgerN) bn) (tfidfVec (bankN ++ ledgerN) ln)))

/-!
Concrete rows used to instantiate the theorems below on closed inputs.
The day number stands for an arbitrary calendar date.
-/

/-- An arbitrary day number (a `datetime.date` as days). -/
def dayA : Int := 738946

/-- Scenario C's bank row: empty narration, non-null date and amount. -/
def bankEmptyNarr : TransactionRecord :=
  { reference := "B1", account := "A1", date := some dayA, currency := none,
    amount := some 10, narration := "" }

/-- Scenario C's ledger row: same date and amount, narration `refund`. -/
def entryRefund : LedgerEntry :=
  { date := some dayA, amount := some 10, narration := "refund" }

/-- A bank row for the tolerance boundary: amount `100.00`. -/
def bankBoundary : TransactionRecord :=
  { reference := "B2", account := "A2", date := some dayA, currency := some "EUR",
    amount := some 100, narration := "invoice 4521 payment" }

/-- A ledger row exactly at both boundaries: amount `100.10`, one day later. -/
def entryBoundary : LedgerEntry :=
  { date := some (dayA + 1), amount := some (100 + 1/10),
    narration := "invoice 4521 settlement" }

/-- A bank row with a null date. -/
def bankNullDate : TransactionRecord :=
  { reference := "B3", account := "A3", date := none, currency := none,
    amount := some 50, narration := "payment" }

/-- A plain ledger row. -/
def entryPlain : LedgerEntry :=
  { date := some dayA, amount := some 50, narration := "payment" }

/-- A bank row whose narration is not yet lower-cased. -/
def bankUpper : TransactionRecord :=
  { reference := "B4", account := "A4", date := some dayA, currency := none,
    amount := some 25, narration := "REFUND 77" }

/-- A bank row that matches `entryMatch` exactly. -/
def bankMatch : TransactionRecord :=
  { reference := "B5", account := "A5", date := some dayA, currency := some "EUR",
    amount := some 10, narration := "invoice 9" }

/-- The ledger row matched by `bankMatch`. -/
def entryMatch : LedgerEntry :=
  { date := some dayA, amount := some 10, narration := "invoice 9" }

/-- A concrete bank-side narration sequence. -/
def wBankN : List String := ["invoice 4521 payment"]

/-- A concrete ledger-side narration sequence. -/
def wLedgerN : List String := ["invoice 4521 settlement"]

/-- The all-zero similarity matrix. -/
def zeroSim : Nat → Nat → Rat := fun _ _ => 0

/-- An all-zero similarity row. -/
def zeroSimRow : Nat → Rat := fun _ => 0

/-- The constant-`1/2` similarity matrix. -/
def halfSim : Nat → Nat → Rat := fun _ _ => 1/2

/-- The unmatched output row for `bankBoundary` against an empty ledger. -/
def c5Row : OutRow :=
  { record := lowerNarration bankBoundary, matched_index := none,
    similarity_score := 0, matched_amount := none, matched_date := none,
    matched_narration := none }

/-- The matched output row for `bankMatch` against `[entryMatch]` under
`halfSim`. -/
def c10Row : OutRow :=
  { record := lowerNarration bankMatch, matched_index := some 0,
    similarity_score := 1/2, matched_amount := some 10,
    matched_date := some dayA, matched_narration := some "invoice 9" }

/-- Invariant of the inner scan: monotonicity of the running best, the
shape of an unmatched outcome, what a selected index guarantees (its score
is the final best, strictly positive, from an eligible row of the scanned
suffix unless it was already selected before the suffix), dominance of the
final best over every eligible scanned score, and strictness of the final
best over every eligible score at an index strictly before the selected
one. -/
theorem bestScan_inv (simRow : Nat → Rat) (b : TransactionRecord) :
    ∀ (ls : List LedgerEntry) (j0 : Nat) (bs : Rat) (bi : Option Nat),
      0 ≤ bs →
      (bi = none → bs = 0) →
      (∀ t, bi = some t → t < j0 ∧ bs = simRow t ∧ 0 < bs) →
      bs ≤ (bestScan simRow b ls j0 (bs, bi)).1 ∧
      ((bestScan simRow b ls j0 (bs, bi)).2 = none →
        (bestScan simRow b ls j0 (bs, bi)).1 = 0 ∧ bi = none) ∧
      (∀ t, (bestScan simRow b ls j0 (bs, bi)).2 = some t →
        0 < (bestScan simRow b ls j0 (bs, bi)).1 ∧
        (bestScan simRow b ls j0 (bs, bi)).1 = simRow t ∧
        (t < j0 → bi = some t ∧ (bestScan simRow b ls j0 (bs, bi)).1 = bs) ∧
        (j0 ≤ t → t < j0 + ls.length ∧
          (∃ l, ls.get? (t - j0) = some l ∧ is_eligible b l = true) ∧
          bs < (bestScan simRow b ls j0 (bs, bi)).1)) ∧
      (∀ k l, ls.get? k = some l → is_eligible b l = true →
        simRow (j0 + k) ≤ (bestScan simRow b ls j0 (bs, bi)).1) ∧
      (∀ t, (bestScan simRow b ls j0 (bs, bi)).2 = some t →
        ∀ k l, j0 + k < t → ls.get? k = some l → is_eligible b l = true →
          simRow (j0 + k) < (bestScan simRow b ls j0 (bs, bi)).1) := by
  intro ls
  induction ls with
  | nil =>
      intro j0 bs bi h0 hnone hsome
      simp only [bestScan]
      refine ⟨le_refl _, fun h => ⟨hnone h, h⟩, ?_, ?_, ?_⟩
      · intro t ht
        obtain ⟨h1, h2, h3⟩ := hsome t ht
        exact ⟨h3, h2, fun _ => ⟨ht, trivial⟩, fun hge => absurd h1 (by omega)⟩
      · intro k l hk
        simp at hk
      · intro t _ k l _ hk
        simp at hk
  | cons l rest ih =>
      intro j0 bs bi h0 hnone hsome
      simp only [bestScan]
      by_cases hc : is_eligible b l = true ∧ bs < simRow j0
      · rw [if_pos (by exact_mod_cast hc)]
        have h0' : (0 : Rat) ≤ simRow j0 := le_of_lt (lt_of_le_of_lt h0 hc.2)
        have hnone' : (some j0 : Option Nat) = none → simRow j0 = 0 := by simp
        have hsome' : ∀ t, (some j0 : Option Nat) = some t →
            t < j0 + 1 ∧ simRow j0 = simRow t ∧ 0 < simRow j0 := by
          intro t ht
          injection ht with ht
          subst ht
          exact ⟨by omega, rfl, lt_of_le_of_lt h0 hc.2⟩
        obtain ⟨ih1, ih2, ih3, ih4, ih5⟩ := ih (j0 + 1) (simRow j0) (some j0) h0' hnone' hsome'
        refine ⟨le_trans (le_of_lt hc.2) ih1, ?_, ?_, ?_, ?_⟩
        · intro h
          exact absurd (ih2 h).2 (by simp)
        · intro t ht
          obtain ⟨p1, p2, p3, p4⟩ := ih3 t ht
          refine ⟨p1, p2, ?_, ?_⟩
          · intro hlt
            have := (p3 (by omega)).1
            injection this with this
            omega
          · intro hge
            rcases Nat.lt_or_ge t (j0 + 1) with hcase | hcase
            · have ht0 : t = j0 := by omega
              subst ht0
              have hr1 := (p3 (by omega)).2
              refine ⟨by simp only [List.length_cons]; omega, ⟨l, ?_, hc.1⟩,
                by rw [hr1]; exact hc.2⟩
              simp [Nat.sub_self]
            · obtain ⟨q1, q2, q3⟩ := p4 hcase
              obtain ⟨l', hl', he'⟩ := q2
              refine ⟨by simp only [List.length_cons]; omega, ⟨l', ?_, he'⟩,
                lt_trans hc.2 q3⟩
              have hidx : t - j0 = (t - (j0 + 1)) + 1 := by omega
              rw [hidx]
              simpa using hl'
        · intro k l' hk he
          cases k with
          | zero =>
              simpa using ih1
          | succ k =>
              have := ih4 k l' (by simpa using hk) he
              have hidx : j0 + (k + 1) = (j0 + 1) + k := by omega
              rw [hidx]
              exact this
        · intro t ht k l' hkt hk he
          cases k with
          | zero =>
              obtain ⟨p1, p2, p3, p4⟩ := ih3 t ht
              have hge : j0 + 1 ≤ t := by omega
              have := (p4 hge).2.2
              simpa using this
          | succ k =>
              have := ih5 t ht k l' (by omega) (by simpa using hk) he
              have hidx : j0 + (k + 1) = (j0 + 1) + k := by omega
              rw [hidx]
              exact this
      · rw [if_neg (by exact_mod_cast hc)]
        have hsome' : ∀ t, bi = some t → t < j0 + 1 ∧ bs = simRow t ∧ 0 < bs := by
          intro t ht
          obtain ⟨h1, h2, h3⟩ := hsome t ht
          exact ⟨by omega, h2, h3⟩
        obtain ⟨ih1, ih2, ih3, ih4, ih5⟩ := ih (j0 + 1) bs bi h0 hnone hsome'
        have hnogain : is_eligible b l = true → simRow j0 ≤ bs := by
          intro he
          by_contra hlt
          exact hc ⟨he, lt_of_not_ge hlt⟩
        refine ⟨ih1, ih2, ?_, ?_, ?_⟩
        · intro t ht
          obtain ⟨p1, p2, p3, p4⟩ := ih3 t ht
          refine ⟨p1, p2, ?_, ?_⟩
          · intro hlt
            exact p3 (by omega)
          · intro hge
            rcases Nat.lt_or_ge t (j0 + 1) with hcase | hcase
            · have ht0 : t = j0 := by omega
              subst ht0
              have hbi := (p3 (by omega)).1
              have := (hsome t hbi).1
              omega
            · obtain ⟨q1, q2, q3⟩ := p4 hcase
              obtain ⟨l', hl', he'⟩ := q2
              refine ⟨by simp only [List.length_cons]; omega, ⟨l', ?_, he'⟩, q3⟩
              have hidx : t - j0 = (t - (j0 + 1)) + 1 := by omega
              rw [hidx]
              simpa using hl'
        · intro k l' hk he
          cases k with
          | zero =>
              have hll : l = l' := by simpa using hk
              rw [← hll] at he
              simpa using le_trans (hnogain he) ih1
          | succ k =>
              have := ih4 k l' (by simpa using hk) he
              have hidx : j0 + (k + 1) = (j0 + 1) + k := by omega
              rw [hidx]
              exact this
        · intro t ht k l' hkt hk he
          cases k with
          | zero =>
              obtain ⟨p1, p2, p3, p4⟩ := ih3 t ht
              have hge : j0 + 1 ≤ t := by omega
              have hbs : bs < (bestScan simRow b rest (j0 + 1) (bs, bi)).1 := (p4 hge).2.2
              have hll : l = l' := by simpa using hk
              rw [← hll] at he
              simpa using lt_of_le_of_lt (hnogain he) hbs
          | succ k =>
              have := ih5 t ht k l' (by omega) (by simpa using hk) he
              have hidx : j0 + (k + 1) = (j0 + 1) + k := by omega
              rw [hidx]
              exact this

/-- Top-level consequences of `bestScan_inv` for the full scan of one bank
row (initial accumulator `(0, none)`). -/
theorem bestMatch_spec (simRow : Nat → Rat) (b : TransactionRecord)
    (ledger : List LedgerEntry) :
    ((bestMatch simRow b ledger).2 = none → (bestMatch simRow b ledger).1 = 0) ∧
    (∀ t, (bestMatch simRow b ledger).2 = some t →
      0 < (bestMatch simRow b ledger).1 ∧
      (bestMatch simRow b ledger).1 = simRow t ∧
      t < ledger.length ∧
      ∃ l, ledger.get? t = some l ∧ is_eligible b l = true) ∧
    (∀ k l, ledger.get? k = some l → is_eligible b l = true →
      simRow k ≤ (bestMatch simRow b ledger).1) ∧
    (∀ t, (bestMatch simRow b ledger).2 = some t →
      ∀ k l, k < t → ledger.get? k = some l → is_eligible b l = true →
        simRow k < (bestMatch simRow b ledger).1) := by
  have hsome0 : ∀ t : Nat, (none : Option Nat) = some t →
      t < 0 ∧ (0 : Rat) = simRow t ∧ (0 : Rat) < 0 := by
    intro t ht
    exact absurd ht (by simp)
  obtain ⟨h1, h2, h3, h4, h5⟩ :=
    bestScan_inv simRow b ledger 0 0 none (le_refl 0) (fun _ => rfl) hsome0
  refine ⟨fun h => (h2 h).1, ?_, ?_, ?_⟩
  · intro t ht
    obtain ⟨p1, p2, p3, p4⟩ := h3 t ht
    obtain ⟨q1, q2, q3⟩ := p4 (Nat.zero_le t)
    obtain ⟨l, hl, he⟩ := q2
    refine ⟨p1, p2, by omega, l, ?_, he⟩
    simpa using hl
  · intro k l hk he
    simpa using h4 k l hk he
  · intro t ht k l hkt hk he
    simpa using h5 t ht k l (by omega) hk he

/-- `bestScan` of an empty ledger suffix returns its accumulator. -/
theorem bestMatch_nil (simRow : Nat → Rat) (b : TransactionRecord) :
    bestMatch simRow b [] = (0, none) := rfl

/-- The consolidated eligibility predicate, unfolded: all four fields
non-null, amount difference within `0.10` and date difference within one
day, both inclusive. -/
theorem is_eligible_iff (b : TransactionRecord) (l : LedgerEntry) :
    is_eligible b l = true ↔
      ∃ bd ld ba la, b.date = some bd ∧ l.date = some ld ∧
        b.amount = some ba ∧ l.amount = some la ∧
        abs (ba - la) ≤ 1/10 ∧ abs (bd - ld) ≤ 1 := by
  constructor
  · intro h
    rcases hbd : b.date with _ | bd <;> rcases hld : l.date with _ | ld <;>
      rcases hba : b.amount with _ | ba <;> rcases hla : l.amount with _ | la <;>
      rw [is_eligible, hbd, hld, hba, hla] at h <;> simp at h
    exact ⟨bd, ld, ba, la, rfl, rfl, rfl, rfl, by rw [one_div]; exact h.1, h.2⟩
  · rintro ⟨bd, ld, ba, la, hbd, hld, hba, hla, h1, h2⟩
    rw [is_eligible, hbd, hld, hba, hla]
    rw [one_div] at h1
    simp [h1, h2]

/-- Lower-casing the narration (line 54) leaves every other column of a
bank row unchanged. -/
theorem lowerNarration_fields (b : TransactionRecord) :
    (lowerNarration b).reference = b.reference ∧
    (lowerNarration b).account = b.account ∧
    (lowerNarration b).date = b.date ∧
    (lowerNarration b).currency = b.currency ∧
    (lowerNarration b).amount = b.amount ∧
    (lowerNarration b).narration = lowerStr b.narration :=
  ⟨rfl, rfl, rfl, rfl, rfl, rfl⟩

/-- Eligibility only reads dates and amounts, so it is invariant under
lower-casing the bank narration. -/
theorem is_eligible_lowerNarration (b : TransactionRecord) (l : LedgerEntry) :
    is_eligible (lowerNarration b) l = is_eligible b l := rfl

/-- Positional contract of the outer loop: row `i` of the output is built
from bank row `i` with similarity row `n + i`. -/
theorem reconcileRows_get? (sim : Nat → Nat → Rat) (app : List LedgerEntry) :
    ∀ (mt : List TransactionRecord) (n i : Nat),
      (reconcileRows sim app n mt).get? i =
        (mt.get? i).map (fun b => mkOutRow (sim (n + i)) app (lowerNarration b)) := by
  intro mt
  induction mt with
  | nil => intro n i; simp [reconcileRows]
  | cons b rest ih =>
      intro n i
      cases i with
      | zero => simp [reconcileRows]
      | succ i =>
          have hidx : n + (i + 1) = (n + 1) + i := by omega
          simp only [reconcileRows, List.get?, hidx]
          exact ih (n + 1) i

/-- The outer loop yields exactly one output row per bank row. -/
theorem reconcileRows_length (sim : Nat → Nat → Rat) (app : List LedgerEntry) :
    ∀ (mt : List TransactionRecord) (n : Nat),
      (reconcileRows sim app n mt).length = mt.length := by
  intro mt
  induction mt with
  | nil => intro n; rfl
  | cons b rest ih => intro n; simp [reconcileRows, ih]

/-- Shape of an unmatched output row (lines 92-96). -/
theorem mkOutRow_none (simRow : Nat → Rat) (app : List LedgerEntry)
    (b : TransactionRecord) (h : (bestMatch simRow b app).2 = none) :
    mkOutRow simRow app b =
      { record := b, matched_index := none, similarity_score := 0,
        matched_amount := none, matched_date := none, matched_narration := none } := by
  rw [mkOutRow]
  rcases hb : bestMatch simRow b app with ⟨s, oj⟩
  rw [hb] at h
  cases oj with
  | none => rfl
  | some j => simp at h

/-- Shape of a matched output row (lines 85-90). -/
theorem mkOutRow_some (simRow : Nat → Rat) (app : List LedgerEntry)
    (b : TransactionRecord) (s : Rat) (j : Nat)
    (h : bestMatch simRow b app = (s, some j)) :
    mkOutRow simRow app b =
      { record := b, matched_index := some j, similarity_score := s,
        matched_amount := (app.get? j).bind (fun e => e.amount),
        matched_date := (app.get? j).bind (fun e => e.date),
        matched_narration := (app.get? j).map (fun e => e.narration) } := by
  rw [mkOutRow, h]

/-- A pair with any null date or amount is never eligible. -/
theorem is_eligible_false_of_null (b : TransactionRecord) (l : LedgerEntry)
    (h : b.date = none ∨ b.amount = none ∨ l.date = none ∨ l.amount = none) :
    is_eligible b l = false := by
  cases hb : is_eligible b l
  · rfl
  · obtain ⟨bd, ld, ba, la, h1, h2, h3, h4, _, _⟩ := (is_eligible_iff b l).mp hb
    rcases h with h | h | h | h <;> simp_all

/-- If no ledger row is eligible for `b`, the scan ends in its initial
state `(0, none)`. -/
theorem bestMatch_none_of_not_eligible (simRow : Nat → Rat)
    (b : TransactionRecord) (app : List LedgerEntry)
    (h : ∀ l, l ∈ app → is_eligible b l = false) :
    bestMatch simRow b app = (0, none) := by
  obtain ⟨h1, h2, _, _⟩ := bestMatch_spec simRow b app
  rcases hb : (bestMatch simRow b app).2 with _ | t
  · exact Prod.ext_iff.mpr ⟨h1 hb, hb⟩
  · obtain ⟨_, _, _, l, hl, he⟩ := h2 t hb
    have hmem : l ∈ app := List.get?_mem hl
    rw [h l hmem] at he
    exact absurd he (by simp)

/-- The bank columns pass through `mkOutRow` unchanged. -/
theorem mkOutRow_record (simRow : Nat → Rat) (app : List LedgerEntry)
    (b : TransactionRecord) : (mkOutRow simRow app b).record = b := by
  rcases hb : bestMatch simRow b app with ⟨s, oj⟩
  cases oj <;> simp [mkOutRow, hb]

/-- The bank columns of the returned frame are the input bank rows with
lower-cased narrations. -/
theorem reconcileRows_map_record (sim : Nat → Nat → Rat) (app : List LedgerEntry) :
    ∀ (mt : List TransactionRecord) (n : Nat),
      (reconcileRows sim app n mt).map (fun r => r.record) = mt.map lowerNarration := by
  intro mt
  induction mt with
  | nil => intro n; rfl
  | cons b rest ih =>
      intro n
      simp only [reconcileRows, List.map_cons, mkOutRow_record]
      rw [ih]

/-- **C1.** For every bank record the Matcher scans eligible ledger
indices in ascending order with a running best initialised to score `0`
and index `none`, replacing the best only on a strictly greater score:
hence a selected index has strictly positive score, every eligible
earlier index scores strictly less (ties keep the earliest), every
eligible index scores at most the selected one, an eligible candidate
scoring exactly `0` is never selected, and when every eligible candidate
scores at most `0` the record is reported unmatched. -/
theorem matcher_strict_greater_first_wins (simRow : Nat → Rat)
    (b : TransactionRecord) (ledger : List LedgerEntry) :
    (∀ j, (bestMatch simRow b ledger).2 = some j →
      0 < simRow j ∧ (bestMatch simRow b ledger).1 = simRow j ∧
      (∀ k l, k < j → ledger.get? k = some l → is_eligible b l = true →
        simRow k < simRow j) ∧
      (∀ k l, ledger.get? k = some l → is_eligible b l = true →
        simRow k ≤ simRow j)) ∧
    (∀ j l, ledger.get? j = some l → is_eligible b l = true → simRow j = 0 →
      (bestMatch simRow b ledger).2 ≠ some j) ∧
    ((∀ j l, ledger.get? j = some l → is_eligible b l = true → simRow j ≤ 0) →
      bestMatch simRow b ledger = (0, none)) := by
  obtain ⟨h1, h2, h3, h4⟩ := bestMatch_spec simRow b ledger
  refine ⟨?_, ?_, ?_⟩
  · intro j hj
    obtain ⟨p1, p2, _, _⟩ := h2 j hj
    refine ⟨p2 ▸ p1, p2, ?_, ?_⟩
    · intro k l hk hget he
      have := h4 j hj k l hk hget he
      rwa [p2] at this
    · intro k l hget he
      have := h3 k l hget he
      rwa [p2] at this
  · intro j l hget he h0 hj
    obtain ⟨p1, p2, _, _⟩ := h2 j hj
    rw [p2, h0] at p1
    exact lt_irrefl 0 p1
  · intro hall
    rcases hb : (bestMatch simRow b ledger).2 with _ | t
    · exact Prod.ext_iff.mpr ⟨h1 hb, hb⟩
    · obtain ⟨p1, p2, _, l, hl, he⟩ := h2 t hb
      rw [p2] at p1
      exact absurd p1 (not_lt.mpr (hall t l hl he))

/-- Witness for C1 at Scenario C: an eligible ledger row whose similarity
score is exactly `0` leaves the record unmatched. -/
theorem matcher_strict_greater_first_wins_witness :
    is_eligible bankEmptyNarr entryRefund = true ∧
    bestMatch zeroSimRow bankEmptyNarr [entryRefund] = (0, none) :=
  ⟨by simp [is_eligible, bankEmptyNarr, entryRefund],
    (matcher_strict_greater_first_wins zeroSimRow bankEmptyNarr [entryRefund]).2.2
      (fun _ _ _ _ => le_refl 0)⟩

/-- **C2.** For records with non-null dates and amounts, eligibility holds
exactly when the absolute amount difference is at most `0.10` and the
absolute day difference is at most `1` (both inclusive), and the currency
column never affects eligibility. -/
theorem eligibility_tolerances (b : TransactionRecord) (l : LedgerEntry)
    (bd ld : Int) (ba la : Rat)
    (hbd : b.date = some bd) (hld : l.date = some ld)
    (hba : b.amount = some ba) (hla : l.amount = some la) :
    (is_eligible b l = true ↔ abs (ba - la) ≤ 1/10 ∧ abs (bd - ld) ≤ 1) ∧
    ∀ c, is_eligible { b with currency := c } l = is_eligible b l := by
  constructor
  · constructor
    · intro h
      rw [is_eligible, hbd, hld, hba, hla] at h
      simp at h
      exact ⟨by rw [one_div]; exact h.1, h.2⟩
    · rintro ⟨h1, h2⟩
      exact (is_eligible_iff b l).mpr ⟨bd, ld, ba, la, hbd, hld, hba, hla, h1, h2⟩
  · intro c
    rfl

/-- Witness for C2 at the exact boundaries: amount difference exactly
`0.10` and day difference exactly `1` are eligible. -/
theorem eligibility_tolerances_witness :
    bankBoundary.amount = some 100 ∧
    entryBoundary.amount = some (100 + 1/10) ∧
    ((is_eligible bankBoundary entryBoundary = true ↔
        abs ((100 : Rat) - (100 + 1/10)) ≤ 1/10 ∧
        abs (dayA - (dayA + 1)) ≤ 1) ∧
      ∀ c, is_eligible { bankBoundary with currency := c } entryBoundary =
        is_eligible bankBoundary entryBoundary) ∧
    is_eligible bankBoundary entryBoundary = true :=
  ⟨rfl, rfl,
    eligibility_tolerances bankBoundary entryBoundary dayA (dayA + 1) 100
      (100 + 1/10) rfl rfl rfl rfl,
    by
      simp [is_eligible, bankBoundary, entryBoundary]
      rw [abs_of_nonneg]
      norm_num⟩

/-- **C3.** A bank record with a null date or null amount produces the
fully unmatched result row (null index, score `0`, null copies) whatever
its narration; and a ledger row with a null date or amount is never
eligible for any bank record. -/
theorem null_bank_fields_unmatched (sim : Nat → Nat → Rat)
    (mt : List TransactionRecord) (app : List LedgerEntry) (i : Nat)
    (b : TransactionRecord) (hb : mt.get? i = some b)
    (h : b.date = none ∨ b.amount = none) :
    (reconcile sim mt app).get? i = some
      { record := lowerNarration b, matched_index := none,
        similarity_score := 0, matched_amount := none, matched_date := none,
        matched_narration := none } ∧
    ∀ (b' : TransactionRecord) (l : LedgerEntry),
      l.date = none ∨ l.amount = none → is_eligible b' l = false := by
  constructor
  · rw [reconcile, reconcileRows_get? sim app mt 0 i, hb]
    have hnull : (lowerNarration b).date = none ∨ (lowerNarration b).amount = none := h
    have hne : ∀ l, l ∈ app → is_eligible (lowerNarration b) l = false :=
      fun l _ => is_eligible_false_of_null (lowerNarration b) l
        (by rcases hnull with h' | h'
            · exact Or.inl h'
            · exact Or.inr (Or.inl h'))
    have hbm := bestMatch_none_of_not_eligible (sim (0 + i)) (lowerNarration b) app hne
    rw [Option.map_some', mkOutRow_none (sim (0 + i)) app (lowerNarration b)
      (by rw [hbm])]
  · intro b' l hl
    exact is_eligible_false_of_null b' l
      (by rcases hl with h' | h'
          · exact Or.inr (Or.inr (Or.inl h'))
          · exact Or.inr (Or.inr (Or.inr h')))

/-- Witness for C3: a bank row with a null date is reported fully
unmatched against a ledger row it would otherwise match on amount. -/
theorem null_bank_fields_unmatched_witness :
    [bankNullDate].get? 0 = some bankNullDate ∧
    bankNullDate.date = none ∧
    (reconcile zeroSim [bankNullDate] [entryPlain]).get? 0 = some
      { record := lowerNarration bankNullDate, matched_index := none,
        similarity_score := 0, matched_amount := none, matched_date := none,
        matched_narration := none } :=
  ⟨rfl, rfl,
    (null_bank_fields_unmatched zeroSim [bankNullDate] [entryPlain] 0
      bankNullDate rfl (Or.inl rfl)).1⟩

/-- **C4.** `reconcile` returns exactly one result row per bank record,
the output length equals the bank-record count, and the row at position
`i` is built from bank record `i` of the original input order (with its
similarity row `i`). -/
theorem reconcile_order_preservation (sim : Nat → Nat → Rat)
    (mt : List TransactionRecord) (app : List LedgerEntry) :
    (reconcile sim mt app).length = mt.length ∧
    ∀ i : Nat, (reconcile sim mt app).get? i =
      (mt.get? i).map (fun b => mkOutRow (sim i) app (lowerNarration b)) := by
  refine ⟨reconcileRows_length sim app mt 0, ?_⟩
  intro i
  rw [reconcile, reconcileRows_get? sim app mt 0 i]
  simp only [Nat.zero_add]

/-- **C5.** `reconcile` is total on all well-typed inputs: it always
returns one row per bank record; with zero bank records it returns the
empty sequence, and with zero ledger entries every returned row is
unmatched. -/
theorem reconcile_total_on_empty (sim : Nat → Nat → Rat)
    (mt : List TransactionRecord) (app : List LedgerEntry) :
    (reconcile sim mt app).length = mt.length ∧
    reconcile sim [] app = [] ∧
    ∀ r, r ∈ reconcile sim mt [] →
      r.matched_index = none ∧ r.similarity_score = 0 ∧
      r.matched_amount = none ∧ r.matched_date = none ∧
      r.matched_narration = none := by
  refine ⟨reconcileRows_length sim app mt 0, rfl, ?_⟩
  intro r hr
  obtain ⟨i, hi⟩ := List.mem_iff_get?.mp hr
  rw [reconcile, reconcileRows_get? sim [] mt 0 i] at hi
  rcases hb : mt.get? i with _ | b
  · rw [hb] at hi
    simp at hi
  · rw [hb] at hi
    simp only [Option.map_some'] at hi
    injection hi with hi
    rw [← hi]
    exact ⟨rfl, rfl, rfl, rfl, rfl⟩

/-- Witness for C5: the single row produced against an empty ledger is
fully unmatched. -/
theorem reconcile_total_on_empty_witness :
    c5Row ∈ reconcile zeroSim [bankBoundary] [] ∧
    (c5Row.matched_index = none ∧ c5Row.similarity_score = 0 ∧
      c5Row.matched_amount = none ∧ c5Row.matched_date = none ∧
      c5Row.matched_narration = none) :=
  ⟨by decide,
    (reconcile_total_on_empty zeroSim [bankBoundary] []).2.2 c5Row (by decide)⟩

/-- **C6 (counterexample).** The claim that `reconcile` leaves its
bank-record input unchanged is false on the code: the source lower-cases
`mt_df['narration']` in place (line 54) and appends the five result
columns to `mt_df` itself (lines 98-102), returning that same frame.  On
a bank row whose narration is not already lower-case, the rows of the
returned (aliased) frame differ from the input rows. -/
theorem reconcile_mutates_bank_input :
    (reconcile zeroSim [bankUpper] []).map (fun r => r.record) ≠ [bankUpper] := by
  decide

/-- **C6 (amended).** `reconcile` mutates its bank-record frame: after
the call the frame's rows are the input rows with narration lower-cased
(plus the five appended result columns); every other original bank column
is preserved, and the ledger-entry input is not touched. -/
theorem reconcile_bank_frame_effect (sim : Nat → Nat → Rat)
    (mt : List TransactionRecord) (app : List LedgerEntry) :
    (reconcile sim mt app).map (fun r => r.record) = mt.map lowerNarration ∧
    ∀ b : TransactionRecord,
      (lowerNarration b).reference = b.reference ∧
      (lowerNarration b).account = b.account ∧
      (lowerNarration b).date = b.date ∧
      (lowerNarration b).currency = b.currency ∧
      (lowerNarration b).amount = b.amount ∧
      (lowerNarration b).narration = lowerStr b.narration :=
  ⟨reconcileRows_map_record sim app mt 0, fun b => lowerNarration_fields b⟩

/-- **C9.** `reconcile` is deterministic: two runs on identical inputs
produce identical result sequences, hence identical `matched_index`,
`similarity_score` and copied columns at every position. -/
theorem reconcile_deterministic (sim1 sim2 : Nat → Nat → Rat)
    (mt1 mt2 : List TransactionRecord) (app1 app2 : List LedgerEntry)
    (hs : sim1 = sim2) (hm : mt1 = mt2) (ha : app1 = app2) :
    reconcile sim1 mt1 app1 = reconcile sim2 mt2 app2 ∧
    ∀ i : Nat,
      ((reconcile sim1 mt1 app1).get? i).map (fun r =>
        (r.matched_index, r.similarity_score, r.matched_amount,
          r.matched_date, r.matched_narration)) =
      ((reconcile sim2 mt2 app2).get? i).map (fun r =>
        (r.matched_index, r.similarity_score, r.matched_amount,
          r.matched_date, r.matched_narration)) := by
  subst hs
  subst hm
  subst ha
  exact ⟨rfl, fun _ => rfl⟩

/-- Witness for C9 on concrete equal inputs. -/
theorem reconcile_deterministic_witness :
    reconcile zeroSim [bankBoundary] [entryPlain] =
      reconcile zeroSim [bankBoundary] [entryPlain] :=
  (reconcile_deterministic zeroSim zeroSim [bankBoundary] [bankBoundary]
    [entryPlain] [entryPlain] rfl rfl rfl).1

/-- **C10.** Whenever an output row carries `matched_index = some j`, `j`
is a valid ledger position; the matched ledger entry has non-null date
and amount and passes both tolerances against the bank record; the
similarity score is the matrix entry `(i, j)` and is strictly positive;
and the copied columns equal the matched entry's amount, date and
narration. -/
theorem matched_row_invariants (sim : Nat → Nat → Rat)
    (mt : List TransactionRecord) (app : List LedgerEntry) (i j : Nat)
    (r : OutRow) (hr : (reconcile sim mt app).get? i = some r)
    (hj : r.matched_index = some j) :
    j < app.length ∧
    ∃ e, app.get? j = some e ∧ e.date ≠ none ∧ e.amount ≠ none ∧
      is_eligible r.record e = true ∧
      (∃ bd ld ba la, r.record.date = some bd ∧ e.date = some ld ∧
        r.record.amount = some ba ∧ e.amount = some la ∧
        abs (ba - la) ≤ 1/10 ∧ abs (bd - ld) ≤ 1) ∧
      r.similarity_score = sim i j ∧ 0 < r.similarity_score ∧
      r.matched_amount = e.amount ∧ r.matched_date = e.date ∧
      r.matched_narration = some e.narration := by
  rw [reconcile, reconcileRows_get? sim app mt 0 i] at hr
  simp only [Nat.zero_add] at hr
  rcases hb : mt.get? i with _ | b
  · rw [hb] at hr
    simp at hr
  · rw [hb] at hr
    simp only [Option.map_some'] at hr
    injection hr with hr
    subst hr
    rcases hbm : bestMatch (sim i) (lowerNarration b) app with ⟨s, oj⟩
    cases oj with
    | none =>
        rw [mkOutRow_none (sim i) app (lowerNarration b) (by rw [hbm])] at hj
        simp at hj
    | some t =>
        rw [mkOutRow_some (sim i) app (lowerNarration b) s t hbm] at hj ⊢
        have ht : t = j := by simpa using hj
        subst ht
        obtain ⟨_, h2, _, _⟩ := bestMatch_spec (sim i) (lowerNarration b) app
        obtain ⟨p1, p2, p3, e, he, helig⟩ := h2 t (by rw [hbm])
        rw [hbm] at p1 p2
        obtain ⟨bd, ld, ba, la, q1, q2, q3, q4, q5, q6⟩ :=
          (is_eligible_iff (lowerNarration b) e).mp helig
        refine ⟨p3, e, he, by rw [q2]; simp, by rw [q4]; simp, helig,
          ⟨bd, ld, ba, la, q1, q2, q3, q4, q5, q6⟩, by simpa using p2, ?_, ?_, ?_, ?_⟩
        · simpa using p1
        · show (app.get? t).bind (fun e => e.amount) = e.amount
          rw [he]
          rfl
        · show (app.get? t).bind (fun e => e.date) = e.date
          rw [he]
          rfl
        · show (app.get? t).map (fun e => e.narration) = some e.narration
          rw [he]
          rfl

/-- Evaluation of the concrete matching run behind the C10 witness. -/
theorem c10Run :
    (reconcile halfSim [bankMatch] [entryMatch]).get? 0 = some c10Row := by
  have hel : is_eligible (lowerNarration bankMatch) entryMatch = true := by
    simp [is_eligible, lowerNarration, bankMatch, entryMatch]
  have hbm : bestMatch (halfSim 0) (lowerNarration bankMatch) [entryMatch] =
      (1/2, some 0) := by
    simp only [bestMatch, bestScan]
    rw [if_pos]
    · rfl
    · exact ⟨by exact_mod_cast hel, by norm_num [halfSim]⟩
  simp only [reconcile, reconcileRows, List.get?]
  rw [mkOutRow_some (halfSim 0) [entryMatch] (lowerNarration bankMatch) (1/2) 0 hbm]
  rfl

/-- Witness for C10 on a concrete run that produces a match. -/
theorem matched_row_invariants_witness :
    (reconcile halfSim [bankMatch] [entryMatch]).get? 0 = some c10Row ∧
    c10Row.matched_index = some 0 ∧
    (0 : Nat) < ([entryMatch] : List LedgerEntry).length :=
  ⟨c10Run, rfl,
    (matched_row_invariants halfSim [bankMatch] [entryMatch] 0 0 c10Row
      c10Run rfl).1⟩

/-- A sum of squared coordinates is non-negative. -/
theorem sumSq_nonneg : ∀ u : List Rat, 0 ≤ sumSq u
  | [] => le_refl 0
  | a :: u => by
      rw [sumSq]
      have := sumSq_nonneg u
      nlinarith [mul_self_nonneg a]

/-- Cauchy-Schwarz for the coordinatewise dot product: the square of the
dot product is bounded by the product of the squared norms. -/
theorem dotQ_sq_le : ∀ u v : List Rat, dotQ u v ^ 2 ≤ sumSq u * sumSq v := by
  intro u
  induction u with
  | nil =>
      intro v
      simp only [dotQ, sumSq]
      have := sumSq_nonneg v
      nlinarith
  | cons a u ih =>
      intro v
      cases v with
      | nil =>
          simp only [dotQ, sumSq]
          have h1 := sumSq_nonneg (a :: u)
          nlinarith [h1]
      | cons b v =>
          have h := ih v
          have hsu := sumSq_nonneg u
          have hsv := sumSq_nonneg v
          simp only [dotQ, sumSq]
          have ha2 : (0:Rat) ≤ a * a := mul_self_nonneg a
          have hb2 : (0:Rat) ≤ b * b := mul_self_nonneg b
          have key : 2 * (a * b * dotQ u v) ≤ a * a * sumSq v + b * b * sumSq u := by
            rcases le_or_lt (a * b * dotQ u v) 0 with hneg | hpos
            · nlinarith [mul_nonneg ha2 hsv, mul_nonneg hb2 hsu]
            · have hsq : (2 * (a * b * dotQ u v)) ^ 2 ≤
                  (a * a * sumSq v + b * b * sumSq u) ^ 2 := by
                nlinarith [sq_nonneg (a * a * sumSq v - b * b * sumSq u),
                  mul_nonneg (mul_nonneg ha2 hb2) (sub_nonneg.mpr h)]
              nlinarith [hsq, mul_nonneg (mul_nonneg ha2 hb2) (sub_nonneg.mpr h),
                mul_nonneg ha2 hsv, mul_nonneg hb2 hsu]
          nlinarith [key, h]

/-- The dot product of coordinatewise non-negative vectors is
non-negative. -/
theorem dotQ_nonneg : ∀ u v : List Rat,
    (∀ x ∈ u, 0 ≤ x) → (∀ x ∈ v, 0 ≤ x) → 0 ≤ dotQ u v := by
  intro u
  induction u with
  | nil =>
      intro v _ _
      simp only [dotQ]
      exact le_refl 0
  | cons a u ih =>
      intro v hu hv
      cases v with
      | nil =>
          simp only [dotQ]
          exact le_refl 0
      | cons b v =>
          simp only [dotQ]
          have ha := hu a (by simp)
          have hb := hv b (by simp)
          have hrest := ih v (fun x hx => hu x (by simp [hx]))
            (fun x hx => hv x (by simp [hx]))
          nlinarith [mul_nonneg ha hb]

/-- The dot product against an all-zero left vector is zero. -/
theorem dotQ_zero_left : ∀ u v : List Rat, (∀ x ∈ u, x = 0) → dotQ u v = 0 := by
  intro u
  induction u with
  | nil => intro v _; simp only [dotQ]
  | cons a u ih =>
      intro v h
      cases v with
      | nil => simp only [dotQ]
      | cons b v =>
          simp only [dotQ]
          rw [h a (by simp), ih v (fun x hx => h x (by simp [hx]))]
          ring

/-- The dot product against an all-zero right vector is zero. -/
theorem dotQ_zero_right : ∀ u v : List Rat, (∀ x ∈ v, x = 0) → dotQ u v = 0 := by
  intro u
  induction u with
  | nil => intro v _; simp only [dotQ]
  | cons a u ih =>
      intro v h
      cases v with
      | nil => simp only [dotQ]
      | cons b v =>
          simp only [dotQ]
          rw [h b (by simp), ih v (fun x hx => h x (by simp [hx]))]
          ring

/-- Every coordinate of a weighted term-frequency vector is non-negative:
term counts and inverse document frequencies are non-negative. -/
theorem tfidfVec_nonneg (docs : List String) (d : String) :
    ∀ x ∈ tfidfVec docs d, 0 ≤ x := by
  intro x hx
  rw [tfidfVec] at hx
  obtain ⟨t, _, rfl⟩ := List.mem_map.mp hx
  apply mul_nonneg
  · exact_mod_cast Nat.zero_le _
  · rw [idf]
    apply one_div_nonneg.mpr
    exact_mod_cast Nat.zero_le _

/-- A narration with no tokens projects to the all-zero vector. -/
theorem tfidfVec_zero (docs : List String) (d : String) (h : tokens d = []) :
    ∀ x ∈ tfidfVec docs d, x = 0 := by
  intro x hx
  rw [tfidfVec, h] at hx
  obtain ⟨t, _, rfl⟩ := List.mem_map.mp hx
  simp [countTok]

/-- Cosine similarity of coordinatewise non-negative vectors is
non-negative. -/
theorem cosineSim_nonneg (u v : List Rat) (hu : ∀ x ∈ u, 0 ≤ x)
    (hv : ∀ x ∈ v, 0 ≤ x) : 0 ≤ cosineSim u v := by
  rw [cosineSim]
  apply div_nonneg
  · exact_mod_cast dotQ_nonneg u v hu hv
  · exact mul_nonneg (Real.sqrt_nonneg _) (Real.sqrt_nonneg _)

/-- Cosine similarity never exceeds `1` (Cauchy-Schwarz; a zero norm makes
the quotient `0`). -/
theorem cosineSim_le_one (u v : List Rat) : cosineSim u v ≤ 1 := by
  rw [cosineSim]
  apply div_le_one_of_le
  · rcases le_or_lt ((dotQ u v : Rat) : ℝ) 0 with hD | hD
    · exact le_trans hD (mul_nonneg (Real.sqrt_nonneg _) (Real.sqrt_nonneg _))
    · have hsu : (0:ℝ) ≤ ((sumSq u : Rat) : ℝ) := by exact_mod_cast sumSq_nonneg u
      have hsv : (0:ℝ) ≤ ((sumSq v : Rat) : ℝ) := by exact_mod_cast sumSq_nonneg v
      rw [← Real.sqrt_mul hsu]
      rw [Real.le_sqrt hD.le (mul_nonneg hsu hsv)]
      exact_mod_cast dotQ_sq_le u v
  · exact mul_nonneg (Real.sqrt_nonneg _) (Real.sqrt_nonneg _)

/-- Cosine similarity against an all-zero left vector is `0`. -/
theorem cosineSim_zero_left (u v : List Rat) (h : ∀ x ∈ u, x = 0) :
    cosineSim u v = 0 := by
  rw [cosineSim, dotQ_zero_left u v h]
  simp

/-- Cosine similarity against an all-zero right vector is `0`. -/
theorem cosineSim_zero_right (u v : List Rat) (h : ∀ x ∈ v, x = 0) :
    cosineSim u v = 0 := by
  rw [cosineSim, dotQ_zero_right u v h]
  simp

/-- **C7.** The scorer builds one vocabulary from the concatenation of the
bank and ledger narration sequences, projects every narration into that
shared space, and returns a dense matrix with one row per bank narration
and one column per ledger narration whose entry `(i, j)` is the cosine
similarity of the two shared-space projections and lies in `[0, 1]`. -/
theorem sim_matrix_shape_range (bankN ledgerN : List String) (i j : Nat)
    (bn ln : String) (hbn : bankN.get? i = some bn)
    (hln : ledgerN.get? j = some ln) :
    (simMatrix bankN ledgerN).length = bankN.length ∧
    (∀ row ∈ simMatrix bankN ledgerN, row.length = ledgerN.length) ∧
    ((simMatrix bankN ledgerN).get? i).bind (fun row => row.get? j) =
      some (cosineSim (tfidfVec (bankN ++ ledgerN) bn)
        (tfidfVec (bankN ++ ledgerN) ln)) ∧
    ∀ row ∈ simMatrix bankN ledgerN, ∀ x ∈ row, 0 ≤ x ∧ x ≤ 1 := by
  refine ⟨by simp [simMatrix], ?_, ?_, ?_⟩
  · intro row hrow
    rw [simMatrix] at hrow
    obtain ⟨bn', _, rfl⟩ := List.mem_map.mp hrow
    simp
  · rw [simMatrix, List.get?_map, hbn, Option.map_some']
    show (ledgerN.map _).get? j = _
    rw [List.get?_map, hln]
    rfl
  · intro row hrow x hx
    rw [simMatrix] at hrow
    obtain ⟨bn', _, rfl⟩ := List.mem_map.mp hrow
    obtain ⟨ln', _, rfl⟩ := List.mem_map.mp hx
    exact ⟨cosineSim_nonneg _ _ (tfidfVec_nonneg _ _) (tfidfVec_nonneg _ _),
      cosineSim_le_one _ _⟩

/-- Witness for C7 on one-element narration sequences. -/
theorem sim_matrix_shape_range_witness :
    wBankN.get? 0 = some "invoice 4521 payment" ∧
    wLedgerN.get? 0 = some "invoice 4521 settlement" ∧
    ((simMatrix wBankN wLedgerN).length = wBankN.length ∧
      (∀ row ∈ simMatrix wBankN wLedgerN, row.length = wLedgerN.length) ∧
      ((simMatrix wBankN wLedgerN).get? 0).bind (fun row => row.get? 0) =
        some (cosineSim (tfidfVec (wBankN ++ wLedgerN) "invoice 4521 payment")
          (tfidfVec (wBankN ++ wLedgerN) "invoice 4521 settlement")) ∧
      ∀ row ∈ simMatrix wBankN wLedgerN, ∀ x ∈ row, 0 ≤ x ∧ x ≤ 1) :=
  ⟨rfl, rfl,
    sim_matrix_shape_range wBankN wLedgerN 0 0 "invoice 4521 payment"
      "invoice 4521 settlement" rfl rfl⟩

/-- **C8.** A narration with no tokens (empty, or nothing surviving the
token rule) projects to the zero vector, and cosine similarity of any
pair involving it is `0` — the zero-norm quotient is defined as `0`,
never an error. -/
theorem empty_narration_zero_similarity (docs : List String) (d e : String)
    (h : tokens d = []) :
    (∀ x ∈ tfidfVec docs d, x = 0) ∧
    cosineSim (tfidfVec docs d) (tfidfVec docs e) = 0 ∧
    cosineSim (tfidfVec docs e) (tfidfVec docs d) = 0 := by
  have hz := tfidfVec_zero docs d h
  exact ⟨hz, cosineSim_zero_left _ _ hz, cosineSim_zero_right _ _ hz⟩

/-- Witness for C8 at Scenario C's narrations: the empty narration against
`refund`. -/
theorem empty_narration_zero_similarity_witness :
    tokens "" = [] ∧
    cosineSim (tfidfVec ["refund"] "") (tfidfVec ["refund"] "refund") = 0 :=
  ⟨by decide,
    (empty_narration_zero_similarity ["refund"] "" "refund" (by decide)).2.1⟩
